import Mathlib

/-!
Verification development for the AIStor small-file cache
(`src/aistor/optimizer.py`).

The Python class `AIStor` keeps three pieces of runtime state:
a dict `metadata_cache : str -> FileMetadata` (insertion-ordered),
an integer running total `current_cache_size`, and on-disk files under
`/cache/small-files`.  We embed this shallowly:

* bytes are `List Nat`;
* a Python dict is an insertion-ordered association list; updating an
  existing key keeps its position (as a Python dict does), a new key is
  appended;
* the filesystem is an association list from path strings to byte
  contents (`open(.., 'wb')` overwrites, `Path.exists` is key lookup,
  `Path.unlink` is key removal);
* timestamps (`time.time()`) are supplied by the caller as a `Nat`
  argument `now` — only their ordering matters to the code;
* `hashlib.sha256(data).hexdigest()[:16]` is an external library call,
  modelled as an arbitrary function parameter `hashFn : Bytes → String`
  applied to the payload bytes;
* `self.current_cache_size` is modelled as `Int` (Python arithmetic
  subtraction, no truncation);
* the float comparison `current_cache_size <= cache_size_limit * 0.8`
  is modelled exactly as the rational inequality
  `5 * current_cache_size ≤ 4 * cache_size_limit`;
* Python `sorted` is a stable sort, modelled by a stable insertion
  sort (`stableSort`) on the strict key comparison;
* a `ValueError` from `int(...)` is modelled as `none`.
-/

/-- Byte strings, as lists of byte values. -/
abbrev Bytes := List Nat

/-- Python dict lookup `d[k]` / `k in d`. -/
def dictGet {α : Type} (l : List (String × α)) (k : String) : Option α :=
  match l with
  | [] => none
  | (k', v) :: rest => if k' = k then some v else dictGet rest k

/-- Python dict assignment `d[k] = v`: an existing key keeps its position
(insertion order), a fresh key is appended at the end. -/
def dictSet {α : Type} (l : List (String × α)) (k : String) (v : α) :
    List (String × α) :=
  match l with
  | [] => [(k, v)]
  | (k', v') :: rest =>
    if k' = k then (k, v) :: rest else (k', v') :: dictSet rest k v

/-- Python `del d[k]`. -/
def dictDel {α : Type} (l : List (String × α)) (k : String) :
    List (String × α) :=
  l.filter (fun p => p.1 ≠ k)

/-- The filesystem visible to the cache: path → file bytes. -/
abbrev FS := List (String × Bytes)

/-- `Path.exists()` on the modelled filesystem. -/
def fsExists (fs : FS) (path : String) : Bool :=
  (dictGet fs path).isSome

/-- `dataclass FileMetadata` from `optimizer.py` (the `cache_location`
field is always set by `cache_file`, so it is a plain `String` here). -/
structure FileMetadata where
  file_path : String
  size : Nat
  hash : String
  access_count : Nat
  last_access : Nat
  cache_location : String
deriving Repr, DecidableEq

/-- The runtime state of an `AIStor` instance together with the files it
has written. -/
structure AIStorState where
  metadata_cache : List (String × FileMetadata)
  current_cache_size : Int
  files : FS
deriving Repr, DecidableEq

/-- The directory constant `self.small_files_dir`. -/
def small_files_dir : String := "/cache/small-files"

/-- Python `str.upper` (the configuration strings are ASCII). -/
def strUpper (s : String) : String := String.mk (s.toList.map Char.toUpper)

/-- Python `str.lower` (extensions are ASCII). -/
def strLower (s : String) : String := String.mk (s.toList.map Char.toLower)

/-- Python `str.endswith`. -/
def strEndsWith (s suf : String) : Bool :=
  decide (s.toList.reverse.take suf.toList.length = suf.toList.reverse)

/-- `s[:-n]` on a Python string. -/
def strDropRight (s : String) (n : Nat) : String :=
  String.mk (s.toList.take (s.toList.length - n))

/-- Value of a list of decimal digits. -/
def digitsVal (cs : List Char) : Nat :=
  cs.foldl (fun acc c => 10 * acc + (c.toNat - 48)) 0

/-- Python `int(s)` restricted to the unsigned decimal literals the spec
quantifies over; any other text raises `ValueError`, i.e. `none`. -/
def pyInt (s : String) : Option Nat :=
  let cs := s.toList
  if !cs.isEmpty && cs.all Char.isDigit then some (digitsVal cs) else none

/-- `AIStor._parse_size`: the Python loop walks the dict
`{"B": 1, "KB": 1024, "MB": 1024**2, "GB": 1024**3}` in insertion order
and returns on the first suffix match, so the `"B"` test runs first. -/
def parse_size (size_str : String) : Option Nat :=
  let u := strUpper size_str
  if strEndsWith u "B" then (pyInt (strDropRight u 1)).map (· * 1)
  else if strEndsWith u "KB" then (pyInt (strDropRight u 2)).map (· * 1024)
  else if strEndsWith u "MB" then (pyInt (strDropRight u 2)).map (· * 1024 ^ 2)
  else if strEndsWith u "GB" then (pyInt (strDropRight u 2)).map (· * 1024 ^ 3)
  else pyInt size_str

/-- Split a character list at `'/'`. -/
def splitSlash : List Char → List (List Char)
  | [] => [[]]
  | c :: rest =>
    if c = '/' then [] :: splitSlash rest
    else
      match splitSlash rest with
      | [] => [[c]]
      | h :: t => (c :: h) :: t

/-- `pathlib.Path(p).name`: the last slash-separated component (trailing
slashes and empty components dropped, as `pathlib` does; the special
components `.` and `..` do not occur in the inputs considered here). -/
def pathName (p : String) : String :=
  String.mk (((splitSlash p.toList).filter (fun s => s ≠ [])).getLastD [])

/-- Index of the last `'.'` in a character list (Python `str.rfind`). -/
def rfindDot : List Char → Option Nat
  | [] => none
  | c :: rest =>
    match rfindDot rest with
    | some i => some (i + 1)
    | none => if c = '.' then some 0 else none

/-- `pathlib.Path(p).suffix`: the substring of the name from its last
dot, provided that dot is neither the first nor the last character. -/
def pathSuffix (p : String) : String :=
  let cs := (pathName p).toList
  match rfindDot cs with
  | some i => if 0 < i ∧ i < cs.length - 1 then String.mk (cs.drop i) else ""
  | none => ""

/-- The allow-list `robotics_extensions` from `should_cache`. -/
def robotics_extensions : List String :=
  [".json", ".yaml", ".yml", ".csv", ".txt", ".pkl"]

/-- `AIStor.should_cache`. -/
def should_cache (small_file_threshold : Nat) (file_path : String)
    (file_size : Nat) : Bool :=
  if file_size > small_file_threshold then false
  else robotics_extensions.contains (strLower (pathSuffix file_path))

/-- Stable insertion for `stableSort`: the new element `a` goes after
every element strictly smaller under `lt` and before the first element
that is not, so elements comparing equal keep their original relative
order. -/
def insertStable {α : Type} (lt : α → α → Bool) (a : α) : List α → List α
  | [] => [a]
  | b :: bs => if lt b a then b :: insertStable lt a bs else a :: b :: bs

/-- Python's `sorted` is a stable sort; it is modelled extensionally by
a stable insertion sort on the strict comparison of the sort key (the
earlier of two key-equal elements stays first, as CPython guarantees). -/
def stableSort {α : Type} (lt : α → α → Bool) : List α → List α
  | [] => []
  | a :: as => insertStable lt a (stableSort lt as)

/-- The strict comparison underlying
`sorted(self.metadata_cache.items(), key=lambda x: x[1].last_access)`. -/
def ltLastAccess (a b : String × FileMetadata) : Bool :=
  a.2.last_access < b.2.last_access

/-- `sorted(self.metadata_cache.items(), key=lambda x: x[1].last_access)`. -/
def sortByLastAccess (l : List (String × FileMetadata)) :
    List (String × FileMetadata) :=
  stableSort ltLastAccess l

/-- One iteration body of the eviction loop of
`AIStor._enforce_cache_limits`: unlink the backing file if it exists
(decrementing the running total only in that case), then delete the
metadata entry. -/
def evictBody (metadata : FileMetadata) (file_path : String)
    (s : AIStorState) : AIStorState :=
  let s1 :=
    if fsExists s.files metadata.cache_location then
      { s with
        files := dictDel s.files metadata.cache_location,
        current_cache_size := s.current_cache_size - metadata.size }
    else s
  { s1 with metadata_cache := dictDel s1.metadata_cache file_path }

/-- The `for file_path, metadata in sorted_files:` loop of
`AIStor._enforce_cache_limits`: stop (`break`) once
`current_cache_size <= cache_size_limit * 0.8` (modelled exactly as
`5 * current ≤ 4 * limit`); otherwise run the body and continue. -/
def evictLoop (cache_size_limit : Int) :
    List (String × FileMetadata) → AIStorState → AIStorState
  | [], s => s
  | (file_path, metadata) :: rest, s =>
    if 5 * s.current_cache_size ≤ 4 * cache_size_limit then s
    else evictLoop cache_size_limit rest (evictBody metadata file_path s)

/-- `AIStor._enforce_cache_limits`. -/
def enforce_cache_limits (cache_size_limit : Int) (s : AIStorState) :
    AIStorState :=
  if s.current_cache_size ≤ cache_size_limit then s
  else evictLoop cache_size_limit (sortByLastAccess s.metadata_cache) s

/-- The cache location string `f"{file_hash}_{Path(file_path).name}"`
under `self.small_files_dir` computed by `AIStor.cache_file`. -/
def cacheLocation (hashFn : Bytes → String) (file_path : String)
    (file_data : Bytes) : String :=
  small_files_dir ++ "/" ++ hashFn file_data ++ "_" ++ pathName file_path

/-- `AIStor.cache_file`: write the bytes, insert/overwrite the metadata
entry, add the payload length to the running total (without subtracting
any overwritten entry's size), run `_enforce_cache_limits`, and return
the cache path string. -/
def cache_file (hashFn : Bytes → String) (cache_size_limit : Int)
    (now : Nat) (s : AIStorState) (file_path : String) (file_data : Bytes) :
    String × AIStorState :=
  let cache_path := cacheLocation hashFn file_path file_data
  let metadata : FileMetadata :=
    { file_path := file_path
      size := file_data.length
      hash := hashFn file_data
      access_count := 1
      last_access := now
      cache_location := cache_path }
  let s1 : AIStorState :=
    { metadata_cache := dictSet s.metadata_cache file_path metadata
      current_cache_size := s.current_cache_size + file_data.length
      files := dictSet s.files cache_path file_data }
  (cache_path, enforce_cache_limits cache_size_limit s1)

/-- `AIStor.get_cached_file`: miss when the path has no entry; if the
backing file is gone, delete the entry (without touching
`current_cache_size`) and return `None`; otherwise bump the access
stats in place and return the file bytes. -/
def get_cached_file (now : Nat) (s : AIStorState) (file_path : String) :
    Option Bytes × AIStorState :=
  match dictGet s.metadata_cache file_path with
  | none => (none, s)
  | some metadata =>
    if fsExists s.files metadata.cache_location then
      let metadata' :=
        { metadata with
          access_count := metadata.access_count + 1
          last_access := now }
      (dictGet s.files metadata.cache_location,
       { s with
         metadata_cache := dictSet s.metadata_cache file_path metadata' })
    else
      (none, { s with metadata_cache := dictDel s.metadata_cache file_path })

/-- The strict comparison of `sorted(..., key=lambda x:
x[1].access_count, reverse=True)`: descending by access count, ties
keeping original (insertion) order, which is what CPython's stable
reverse sort does. -/
def gtAccessCount (a b : String × FileMetadata) : Bool :=
  b.2.access_count < a.2.access_count

/-- The fields of the dict returned by `AIStor.get_cache_stats`, with
byte quantities kept in bytes (the Python code scales them to MB/KB and
a percentage for display; those are fixed bijective rescalings of the
same numbers, plus a float rounding for printing, and carry no further
information). -/
structure CacheStats where
  total_cached_files : Nat
  current_cache_size_bytes : Int
  cache_limit_bytes : Int
  most_accessed_files : List (String × Nat)
deriving Repr, DecidableEq

/-- `AIStor.get_cache_stats`. -/
def get_cache_stats (cache_size_limit : Int) (s : AIStorState) :
    CacheStats :=
  { total_cached_files := s.metadata_cache.length
    current_cache_size_bytes := s.current_cache_size
    cache_limit_bytes := cache_size_limit
    most_accessed_files :=
      ((stableSort gtAccessCount s.metadata_cache).take 5).map
        (fun p => (p.1, p.2.access_count)) }

/-- Sum of `metadata.size` over the live index entries (the quantity the
spec's size invariant compares against `current_cache_size`). -/
def sumSizes (l : List (String × FileMetadata)) : Int :=
  l.foldr (fun p acc => (p.2.size : Int) + acc) 0

/-- A fresh `AIStor` instance's runtime state (empty index, zero
counter) together with no cached files on disk. -/
def emptyState : AIStorState :=
  { metadata_cache := [], current_cache_size := 0, files := [] }

/-- A concrete instance of the `hashFn` parameter for the closed
scenarios below.  The behaviours demonstrated never inspect the digest
text, so any function of the payload bytes exercises the same code
paths as the real truncated SHA-256. -/
def hashStub : Bytes → String := fun _ => "h"

/-- A state whose single index entry points at a cache location with no
backing file (the bytes were removed out-of-band), with the running
size counter still accounting for it. -/
def staleEntry : FileMetadata :=
  { file_path := "a.json", size := 5, hash := "h", access_count := 1,
    last_access := 1, cache_location := "/cache/small-files/h_a.json" }

/-- See `staleEntry`. -/
def staleState : AIStorState :=
  { metadata_cache := [("a.json", staleEntry)], current_cache_size := 5,
    files := [] }

/-- The state after caching 3 bytes and then 5 bytes under the same
logical path `"a.json"` (an overwriting `cache_file`), with a capacity
limit large enough that no eviction runs. -/
def overwriteState : AIStorState :=
  (cache_file hashStub 1000000000 1
    (cache_file hashStub 1000000000 0 emptyState "a.json" [1, 2, 3]).2
    "a.json" [1, 2, 3, 4, 5]).2

/-- Two logical paths `a/x.json` and `b/x.json` with equal basenames
cached with equal payloads: their entries share the single on-disk
object `/cache/small-files/h_x.json`. -/
def sharedMeta1 : FileMetadata :=
  { file_path := "a/x.json", size := 10, hash := "h", access_count := 1,
    last_access := 1, cache_location := "/cache/small-files/h_x.json" }

/-- See `sharedMeta1`. -/
def sharedMeta2 : FileMetadata :=
  { file_path := "b/x.json", size := 10, hash := "h", access_count := 1,
    last_access := 2, cache_location := "/cache/small-files/h_x.json" }

/-- See `sharedMeta1`: the index holds both entries, the store holds the
one shared object. -/
def sharedState : AIStorState :=
  { metadata_cache := [("a/x.json", sharedMeta1), ("b/x.json", sharedMeta2)],
    current_cache_size := 20,
    files := [("/cache/small-files/h_x.json", [7, 7, 7, 7, 7, 7, 7, 7, 7, 7])] }

/-! ### Helper lemmas -/

theorem dictGet_dictSet_self {α : Type} (l : List (String × α)) (k : String)
    (v : α) : dictGet (dictSet l k v) k = some v := by
  induction l with
  | nil => simp [dictSet, dictGet]
  | cons p rest ih =>
    obtain ⟨k', v'⟩ := p
    by_cases h : k' = k
    · simp [dictSet, h, dictGet]
    · simp [dictSet, h, dictGet, ih]

theorem dictGet_dictDel_self {α : Type} (l : List (String × α))
    (k : String) : dictGet (dictDel l k) k = none := by
  induction l with
  | nil => rfl
  | cons p rest ih =>
    by_cases h : p.1 = k
    · simpa [dictDel, List.filter_cons, h] using ih
    · simpa [dictDel, List.filter_cons, h, dictGet] using ih

theorem mem_dictDel {α : Type} {l : List (String × α)} {k : String}
    {p : String × α} (hp : p ∈ dictDel l k) : p ∈ l ∧ p.1 ≠ k := by
  have := List.mem_filter.mp hp
  simpa using this

theorem foldl_dictDel_eq_nil {α : Type} :
    ∀ (ks : List String) (l : List (String × α)),
      (∀ p ∈ l, p.1 ∈ ks) → List.foldl dictDel l ks = [] := by
  intro ks
  induction ks with
  | nil =>
    intro l h
    cases l with
    | nil => rfl
    | cons p rest => exact absurd (h p (by simp)) (by simp)
  | cons k ks ih =>
    intro l h
    show List.foldl dictDel (dictDel l k) ks = []
    apply ih
    intro p hp
    obtain ⟨hmem, hne⟩ := mem_dictDel hp
    have := h p hmem
    simp only [List.mem_cons] at this
    rcases this with h1 | h1
    · exact absurd h1 hne
    · exact h1

theorem evictBody_metadata (metadata : FileMetadata) (file_path : String)
    (s : AIStorState) :
    (evictBody metadata file_path s).metadata_cache =
      dictDel s.metadata_cache file_path := by
  unfold evictBody
  split <;> rfl

theorem mem_insertStable {α : Type} (lt : α → α → Bool) (a : α)
    (l : List α) (x : α) :
    x ∈ insertStable lt a l ↔ x = a ∨ x ∈ l := by
  induction l with
  | nil => simp [insertStable]
  | cons b bs ih =>
    by_cases h : lt b a
    · simp only [insertStable, h, if_pos, List.mem_cons, ih]
      tauto
    · simp only [insertStable, h, if_neg, Bool.false_eq_true,
        not_false_iff, List.mem_cons]

theorem mem_stableSort {α : Type} (lt : α → α → Bool) (l : List α)
    (x : α) : x ∈ stableSort lt l ↔ x ∈ l := by
  induction l with
  | nil => simp [stableSort]
  | cons a as ih => simp [stableSort, mem_insertStable, ih]

theorem perm_insertStable {α : Type} (lt : α → α → Bool) (a : α)
    (l : List α) : List.Perm (insertStable lt a l) (a :: l) := by
  induction l with
  | nil => simp [insertStable]
  | cons b bs ih =>
    by_cases h : lt b a
    · simp only [insertStable, h, if_pos]
      exact (ih.cons b).trans (List.Perm.swap a b bs)
    · simp [insertStable, h]

theorem perm_stableSort {α : Type} (lt : α → α → Bool) (l : List α) :
    List.Perm (stableSort lt l) l := by
  induction l with
  | nil => exact List.Perm.refl []
  | cons a as ih =>
    exact (perm_insertStable lt a (stableSort lt as)).trans (ih.cons a)

theorem pairwise_insertStable (a : String × FileMetadata)
    (l : List (String × FileMetadata))
    (hl : List.Pairwise (fun x y => x.2.last_access ≤ y.2.last_access) l) :
    List.Pairwise (fun x y => x.2.last_access ≤ y.2.last_access)
      (insertStable ltLastAccess a l) := by
  induction l with
  | nil => simp [insertStable]
  | cons b bs ih =>
    rw [List.pairwise_cons] at hl
    by_cases h : ltLastAccess b a
    · have hba : b.2.last_access < a.2.last_access := by
        simpa [ltLastAccess] using h
      simp only [insertStable, h, if_pos]
      rw [List.pairwise_cons]
      constructor
      · intro x hx
        rcases (mem_insertStable _ a bs x).mp hx with hx | hx
        · exact hx ▸ Nat.le_of_lt hba
        · exact hl.1 x hx
      · exact ih hl.2
    · have hab : a.2.last_access ≤ b.2.last_access := by
        simp only [ltLastAccess, decide_eq_true_eq] at h
        omega
      simp only [insertStable, h, if_neg, Bool.false_eq_true, not_false_iff]
      rw [List.pairwise_cons]
      constructor
      · intro x hx
        rcases List.mem_cons.mp hx with hx | hx
        · exact hx ▸ hab
        · exact Nat.le_trans hab (hl.1 x hx)
      · exact List.pairwise_cons.mpr hl
  
theorem pairwise_sortByLastAccess (l : List (String × FileMetadata)) :
    List.Pairwise (fun x y => x.2.last_access ≤ y.2.last_access)
      (sortByLastAccess l) := by
  induction l with
  | nil => simp [sortByLastAccess, stableSort]
  | cons a as ih => exact pairwise_insertStable a _ ih

theorem filter_insertStable (t : Nat) (a : String × FileMetadata)
    (l : List (String × FileMetadata)) :
    (insertStable ltLastAccess a l).filter
        (fun p => decide (p.2.last_access = t)) =
      if a.2.last_access = t
      then a :: l.filter (fun p => decide (p.2.last_access = t))
      else l.filter (fun p => decide (p.2.last_access = t)) := by
  induction l with
  | nil =>
    by_cases hat : a.2.last_access = t <;>
      simp [insertStable, List.filter_cons, hat]
  | cons b bs ih =>
    by_cases hlt : ltLastAccess b a
    · have hba : b.2.last_access < a.2.last_access := by
        simpa [ltLastAccess] using hlt
      by_cases hat : a.2.last_access = t
      · have hbt : ¬ b.2.last_access = t := by omega
        simp [insertStable, hlt, List.filter_cons, hbt, ih, hat]
      · simp [insertStable, hlt, List.filter_cons, ih, hat]
    · by_cases hat : a.2.last_access = t <;>
        simp [insertStable, hlt, List.filter_cons, hat]

theorem filter_sortByLastAccess (l : List (String × FileMetadata))
    (t : Nat) :
    (sortByLastAccess l).filter (fun p => decide (p.2.last_access = t)) =
      l.filter (fun p => decide (p.2.last_access = t)) := by
  induction l with
  | nil => rfl
  | cons a as ih =>
    show (insertStable ltLastAccess a (sortByLastAccess as)).filter _ = _
    rw [filter_insertStable, ih]
    by_cases hat : a.2.last_access = t <;> simp [List.filter_cons, hat]

theorem evictLoop_spec (limit : Int)
    (todo : List (String × FileMetadata)) :
    ∀ s : AIStorState,
      (5 * (evictLoop limit todo s).current_cache_size ≤ 4 * limit ∨
        (evictLoop limit todo s).metadata_cache =
          List.foldl dictDel s.metadata_cache (todo.map Prod.fst)) ∧
      ∃ pre post, todo = pre ++ post ∧
        (evictLoop limit todo s).metadata_cache =
          List.foldl dictDel s.metadata_cache (pre.map Prod.fst) := by
  induction todo with
  | nil =>
    intro s
    exact ⟨Or.inr rfl, [], [], rfl, rfl⟩
  | cons hd rest ih =>
    intro s
    obtain ⟨fp, md⟩ := hd
    by_cases hbreak : 5 * s.current_cache_size ≤ 4 * limit
    · have hres : evictLoop limit ((fp, md) :: rest) s = s := by
        simp [evictLoop, hbreak]
      refine ⟨Or.inl ?_, [], (fp, md) :: rest, rfl, ?_⟩
      · rw [hres]; exact hbreak
      · rw [hres]; rfl
    · have hres : evictLoop limit ((fp, md) :: rest) s =
          evictLoop limit rest (evictBody md fp s) := by
        simp [evictLoop, hbreak]
      obtain ⟨h1, pre, post, hsplit, h2⟩ := ih (evictBody md fp s)
      constructor
      · rcases h1 with h1 | h1
        · exact Or.inl (hres ▸ h1)
        · refine Or.inr ?_
          rw [hres, h1, evictBody_metadata]
          rfl
      · refine ⟨(fp, md) :: pre, post, by rw [hsplit]; rfl, ?_⟩
        rw [hres, h2, evictBody_metadata]
        rfl

theorem fsExists_dictSet_self (fs : FS) (k : String) (v : Bytes) :
    fsExists (dictSet fs k v) k = true := by
  simp [fsExists, dictGet_dictSet_self]

theorem enforce_noop {limit : Int} {s : AIStorState}
    (h : s.current_cache_size ≤ limit) :
    enforce_cache_limits limit s = s := by
  rw [enforce_cache_limits, if_pos h]

/-! ### Claim theorems -/

/-- C2: `_parse_size` is claimed to map `n` followed by `B`, `KB`, `MB`,
`GB` to `n`, `n·1024`, `n·1024²`, `n·1024³`.  The code checks the
suffixes in dict insertion order starting with `"B"`, which every other
suffix also ends in, so `"1KB"`, `"2MB"`, `"1GB"` take the `"B"` branch
and `int("1K")` etc. raises `ValueError` instead of returning the
multiplied value; only the plain-`B` and no-suffix forms behave as
claimed. -/
theorem parse_size_suffix_divergence :
    parse_size "1GB" = none ∧ parse_size "1KB" = none ∧
    parse_size "2MB" = none ∧ parse_size "100B" = some 100 ∧
    parse_size "123" = some 123 ∧ parse_size "0B" = some 0 := by decide

/-- C1: the running size counter is claimed to equal the sum of entry
sizes after every operation.  Evaluating the code: a `get_cached_file`
self-heal removes the stale entry but leaves `current_cache_size` at 5
while the sum over the (now empty) index is 0; an overwriting
`cache_file` (3 bytes then 5 bytes under one path) leaves the counter
at 8 while the sum of entry sizes is 5. -/
theorem size_counter_divergence :
    ((get_cached_file 2 staleState "a.json").2.metadata_cache = [] ∧
     (get_cached_file 2 staleState "a.json").2.current_cache_size = 5 ∧
     sumSizes (get_cached_file 2 staleState "a.json").2.metadata_cache = 0) ∧
    (overwriteState.current_cache_size = 8 ∧
     sumSizes overwriteState.metadata_cache = 5) := by decide

/-- C8: stats are claimed to report a byte total equal to the sum of
entry sizes after any sequence of inserts and evictions.  The entry
count matches the index length, but after the insert-only sequence
producing `overwriteState` the reported byte total is the (stale)
running counter 8 while the sum of entry sizes is 5. -/
theorem stats_divergence :
    (get_cache_stats 1000000000 overwriteState).total_cached_files =
      overwriteState.metadata_cache.length ∧
    (get_cache_stats 1000000000 overwriteState).current_cache_size_bytes = 8 ∧
    sumSizes overwriteState.metadata_cache = 5 ∧
    (get_cache_stats 1000000000 overwriteState).current_cache_size_bytes ≠
      sumSizes overwriteState.metadata_cache := by decide

/-- C10: with capacity 4, caching a 5-byte payload in an empty cache
triggers eviction of the entry just inserted (its size exceeds both the
capacity and the 0.8 low-water mark), the on-disk file is deleted, yet
`cache_file` still returns the cache location string, and a subsequent
`get_cached_file` misses. -/
theorem cache_file_returns_evicted_location :
    (4 : Int) < (([0, 1, 2, 3, 4] : Bytes).length : Int) ∧
    4 * 4 < 5 * (([0, 1, 2, 3, 4] : Bytes).length : Int) ∧
    (cache_file hashStub 4 0 emptyState "a.json" [0, 1, 2, 3, 4]).1 =
      "/cache/small-files/h_a.json" ∧
    dictGet (cache_file hashStub 4 0 emptyState "a.json"
      [0, 1, 2, 3, 4]).2.metadata_cache "a.json" = none ∧
    fsExists (cache_file hashStub 4 0 emptyState "a.json"
      [0, 1, 2, 3, 4]).2.files "/cache/small-files/h_a.json" = false ∧
    (get_cached_file 1 (cache_file hashStub 4 0 emptyState "a.json"
      [0, 1, 2, 3, 4]).2 "a.json").1 = none := by decide

/-- C3: enforcement is a no-op when the running total is at or below the
capacity limit; otherwise, when it returns, either the running total is
at most `0.8 · limit` or the index has been emptied first. -/
theorem eviction_convergence (limit : Int) (s : AIStorState) :
    (s.current_cache_size ≤ limit → enforce_cache_limits limit s = s) ∧
    (limit < s.current_cache_size →
      5 * (enforce_cache_limits limit s).current_cache_size ≤ 4 * limit ∨
      (enforce_cache_limits limit s).metadata_cache = []) := by
  constructor
  · intro h
    exact enforce_noop h
  · intro h
    have hneg : ¬ s.current_cache_size ≤ limit := by omega
    rw [enforce_cache_limits, if_neg hneg]
    rcases (evictLoop_spec limit (sortByLastAccess s.metadata_cache) s).1 with
      h1 | h1
    · exact Or.inl h1
    · refine Or.inr ?_
      rw [h1]
      apply foldl_dictDel_eq_nil
      intro p hp
      exact List.mem_map_of_mem Prod.fst
        ((mem_stableSort ltLastAccess s.metadata_cache p).mpr hp)

/-- Witness for C3 at concrete states: a no-op below the limit, and
convergence above it. -/
theorem eviction_convergence_witness :
    enforce_cache_limits 10 staleState = staleState ∧
    (5 * (enforce_cache_limits 15 sharedState).current_cache_size ≤ 4 * 15 ∨
      (enforce_cache_limits 15 sharedState).metadata_cache = []) :=
  ⟨(eviction_convergence 10 staleState).1 (by decide),
   (eviction_convergence 15 sharedState).2 (by decide)⟩

/-- C4: if a path has a metadata entry whose backing file does not
exist, `get_cached_file` returns `none` and removes the entry; a second
call on the same path also returns `none`; and a path with no entry at
all is a plain miss returning `none` with the state unchanged.  The
model is total, so no error can surface on any of these paths. -/
theorem self_heal_idempotent (s : AIStorState) (p : String)
    (md : FileMetadata) (now1 now2 : Nat)
    (hmd : dictGet s.metadata_cache p = some md)
    (hmiss : fsExists s.files md.cache_location = false) :
    (get_cached_file now1 s p).1 = none ∧
    dictGet (get_cached_file now1 s p).2.metadata_cache p = none ∧
    (get_cached_file now2 (get_cached_file now1 s p).2 p).1 = none ∧
    ∀ q, dictGet s.metadata_cache q = none →
      get_cached_file now1 s q = (none, s) := by
  have h1 : get_cached_file now1 s p =
      (none, { s with metadata_cache := dictDel s.metadata_cache p }) := by
    simp only [get_cached_file, hmd, hmiss, Bool.false_eq_true, if_false]
  refine ⟨?_, ?_, ?_, ?_⟩
  · rw [h1]
  · rw [h1]
    exact dictGet_dictDel_self _ _
  · rw [h1]
    simp only [get_cached_file, dictGet_dictDel_self]
  · intro q hq
    simp only [get_cached_file, hq]

/-- Witness for C4 at a concrete stale state. -/
theorem self_heal_idempotent_witness :
    (get_cached_file 2 staleState "a.json").1 = none ∧
    dictGet (get_cached_file 2 staleState "a.json").2.metadata_cache
      "a.json" = none ∧
    (get_cached_file 3 (get_cached_file 2 staleState "a.json").2
      "a.json").1 = none :=
  ⟨(self_heal_idempotent staleState "a.json" staleEntry 2 3 (by decide)
      (by decide)).1,
   (self_heal_idempotent staleState "a.json" staleEntry 2 3 (by decide)
      (by decide)).2.1,
   (self_heal_idempotent staleState "a.json" staleEntry 2 3 (by decide)
      (by decide)).2.2.1⟩

/-- C5: the eviction scan order is the stable sort of the index by
`last_access`: it is ascending in `last_access`; it keeps key-equal
entries in their original (insertion) order — the entries with any given
timestamp appear exactly as in the index; with pairwise-distinct
timestamps it is strictly ascending; and the set of evicted victims is
always the key set of a prefix of that scan order.  The model is a pure
function of the entry set and timestamps, so two runs on the same state
yield the same victims in the same order. -/
theorem lru_eviction_order (limit : Int) (s : AIStorState) :
    List.Pairwise (fun x y => x.2.last_access ≤ y.2.last_access)
      (sortByLastAccess s.metadata_cache) ∧
    (∀ t : Nat,
      (sortByLastAccess s.metadata_cache).filter
          (fun p => decide (p.2.last_access = t)) =
        s.metadata_cache.filter (fun p => decide (p.2.last_access = t))) ∧
    (List.Pairwise (fun x y => x.2.last_access ≠ y.2.last_access)
        s.metadata_cache →
      List.Pairwise (fun x y => x.2.last_access < y.2.last_access)
        (sortByLastAccess s.metadata_cache)) ∧
    ∃ pre post, sortByLastAccess s.metadata_cache = pre ++ post ∧
      (enforce_cache_limits limit s).metadata_cache =
        List.foldl dictDel s.metadata_cache (pre.map Prod.fst) := by
  refine ⟨pairwise_sortByLastAccess _,
    filter_sortByLastAccess s.metadata_cache, ?_, ?_⟩
  · intro hne
    have hperm : List.Perm (sortByLastAccess s.metadata_cache)
        s.metadata_cache := perm_stableSort _ _
    have hne' : List.Pairwise
        (fun x y => x.2.last_access ≠ y.2.last_access)
        (sortByLastAccess s.metadata_cache) :=
      (hperm.pairwise_iff (fun h => h.symm)).mpr hne
    exact ((pairwise_sortByLastAccess s.metadata_cache).and hne').imp
      (fun h => Nat.lt_of_le_of_ne h.1 h.2)
  · by_cases h : s.current_cache_size ≤ limit
    · refine ⟨[], sortByLastAccess s.metadata_cache, rfl, ?_⟩
      rw [enforce_noop h]
      rfl
    · rw [enforce_cache_limits, if_neg h]
      exact (evictLoop_spec limit (sortByLastAccess s.metadata_cache) s).2

/-- Witness for C5: with distinct timestamps the concrete scan order is
strictly ascending. -/
theorem lru_eviction_order_witness :
    List.Pairwise (fun x y => x.2.last_access < y.2.last_access)
      (sortByLastAccess sharedState.metadata_cache) :=
  (lru_eviction_order 15 sharedState).2.2.1 (by decide)

theorem cache_file_no_evict (hashFn : Bytes → String) (limit : Int)
    (now : Nat) (s : AIStorState) (p : String) (b : Bytes)
    (hfit : s.current_cache_size + (b.length : Int) ≤ limit) :
    (cache_file hashFn limit now s p b).2 =
      { metadata_cache := dictSet s.metadata_cache p
          { file_path := p, size := b.length, hash := hashFn b,
            access_count := 1, last_access := now,
            cache_location := cacheLocation hashFn p b },
        current_cache_size := s.current_cache_size + b.length,
        files := dictSet s.files (cacheLocation hashFn p b) b } := by
  simp only [cache_file]
  exact enforce_noop hfit

/-- C6 counterexample: the round-trip claim quantifies over every state
and capacity; with capacity 4 a cacheable 5-byte `.json` payload is
evicted by the `_enforce_cache_limits` call inside `cache_file` itself,
so the immediately following `get_cached_file` returns `none`, not the
payload. -/
theorem round_trip_counterexample :
    should_cache 1048576 "a.json" ([0, 1, 2, 3, 4] : Bytes).length = true ∧
    (get_cached_file 1 (cache_file hashStub 4 0 emptyState "a.json"
      [0, 1, 2, 3, 4]).2 "a.json").1 ≠ some ([0, 1, 2, 3, 4] : Bytes) ∧
    (get_cached_file 1 (cache_file hashStub 4 0 emptyState "a.json"
      [0, 1, 2, 3, 4]).2 "a.json").1 = none := by decide

/-- C6 as amended: caching a payload and reading it back under the same
logical path returns exactly the payload, provided the insertion does
not push the running total over the capacity limit (so the eviction
sweep inside `cache_file` stays a no-op). -/
theorem round_trip_amended (hashFn : Bytes → String) (limit : Int)
    (thr now1 now2 : Nat) (s : AIStorState) (p : String) (b : Bytes)
    (hsc : should_cache thr p b.length = true)
    (hfit : s.current_cache_size + (b.length : Int) ≤ limit) :
    (get_cached_file now2 (cache_file hashFn limit now1 s p b).2 p).1 =
      some b := by
  rw [cache_file_no_evict hashFn limit now1 s p b hfit]
  simp only [get_cached_file, dictGet_dictSet_self, fsExists_dictSet_self,
    if_true]

/-- Witness for C6's amended round trip at a concrete input. -/
theorem round_trip_amended_witness :
    (get_cached_file 1 (cache_file hashStub 100 0 emptyState "a.json"
      [1, 2]).2 "a.json").1 = some ([1, 2] : Bytes) :=
  round_trip_amended hashStub 100 1048576 0 1 emptyState "a.json" [1, 2]
    (by decide) (by decide)

/-- C7: `should_cache` is false whenever the size exceeds the threshold,
regardless of extension; at or below the threshold it is true exactly
when the lower-cased `pathlib` suffix of the path is one of the six
allow-listed extensions. -/
theorem should_cache_policy (thr : Nat) (p : String) (sz : Nat) :
    (thr < sz → should_cache thr p sz = false) ∧
    (sz ≤ thr → (should_cache thr p sz = true ↔
      strLower (pathSuffix p) ∈
        ([".json", ".yaml", ".yml", ".csv", ".txt", ".pkl"] :
          List String))) := by
  constructor
  · intro h
    rw [should_cache, if_pos (by omega : sz > thr)]
  · intro h
    rw [should_cache, if_neg (by omega : ¬ sz > thr)]
    simp [robotics_extensions, List.contains, List.elem_iff]

/-- Witness for C7: an allow-listed upper-case extension under the
threshold, a non-listed extension under the threshold, and an oversized
allow-listed file. -/
theorem should_cache_policy_witness :
    should_cache 100 "a/b.JSON" 50 = true ∧
    should_cache 100 "a/b.exe" 50 = false ∧
    should_cache 100 "a/b.json" 101 = false := by
  refine ⟨?_, ?_, ?_⟩
  · exact ((should_cache_policy 100 "a/b.JSON" 50).2 (by decide)).mpr
      (by decide)
  · cases hb : should_cache 100 "a/b.exe" 50 with
    | false => rfl
    | true =>
      exact absurd (((should_cache_policy 100 "a/b.exe" 50).2
        (by decide)).mp hb) (by decide)
  · exact (should_cache_policy 100 "a/b.json" 101).1 (by decide)

/-- C9: the cache location computed by `cache_file` depends only on the
digest of the payload bytes and the basename of the logical path — any
two paths with equal basenames and equal payloads are stored at one
shared location, in any states, at any times, under any capacity.
Consequently two index entries can share one on-disk object, and
evicting one deletes the bytes backing the other: in the concrete
`sharedState`, enforcement evicts `a/x.json` and afterwards the
surviving entry `b/x.json` is still indexed while its backing file no
longer exists. -/
theorem cache_location_basename_only (hashFn : Bytes → String)
    (limit1 limit2 : Int) (now1 now2 : Nat) (s1 s2 : AIStorState)
    (p1 p2 : String) (b : Bytes) (hname : pathName p1 = pathName p2) :
    (cache_file hashFn limit1 now1 s1 p1 b).1 =
      (cache_file hashFn limit2 now2 s2 p2 b).1 ∧
    dictGet (enforce_cache_limits 15 sharedState).metadata_cache
      "b/x.json" = some sharedMeta2 ∧
    fsExists (enforce_cache_limits 15 sharedState).files
      sharedMeta2.cache_location = false := by
  refine ⟨?_, by decide, by decide⟩
  simp [cache_file, cacheLocation, hname]

/-- Witness for C9 at two concrete paths with equal basenames. -/
theorem cache_location_basename_only_witness :
    (cache_file hashStub 100 0 emptyState "a/x.json" [7]).1 =
      (cache_file hashStub 100 1 emptyState "b/x.json" [7]).1 ∧
    dictGet (enforce_cache_limits 15 sharedState).metadata_cache
      "b/x.json" = some sharedMeta2 ∧
    fsExists (enforce_cache_limits 15 sharedState).files
      sharedMeta2.cache_location = false :=
  cache_location_basename_only hashStub 100 100 0 1 emptyState emptyState
    "a/x.json" "b/x.json" [7] (by decide)
